import Mathlib

/-!
Shallow embedding of `src/main.ts` (a grid-based geocaching game).

Modelling conventions:
* JS numbers are modelled as rationals (`ℚ`); the one claim about the
  program's arithmetic on literal constants (C9) was checked to agree with
  IEEE-754 double evaluation of the same literals.
* `Math.sin`-based `deterministicRandom` is a floating-point transcendental
  primitive; it is abstracted as a parameter `dr : ℤ → ℚ`, with the range
  hypothesis `0 ≤ dr n < 1` (the range of `abs(sin(n)*10000) % 1`) carried
  where a claim needs it.  Everything downstream of it is embedded exactly.
* JSON text (`JSON.stringify`/`JSON.parse`) is modelled by structured values:
  a cache momento is the record it serialises, and the persisted session blob
  is a `Json` tree; well-formed encode/decode mirror the source's field
  accesses, and decode failure models the exception thrown on a malformed
  blob.
* The DOM / Leaflet layer (markers, popups, alerts) carries no game state and
  is dropped; `localStorage` is modelled as the `savedBlob` field of the game
  state.
-/

namespace Demo3

/-- `type Coordinates = { lat: number; lng: number }`. -/
structure Coordinates where
  lat : ℚ
  lng : ℚ
deriving DecidableEq

/-- `type Cell = { i: number; j: number }`. -/
structure Cell where
  i : ℤ
  j : ℤ
deriving DecidableEq

/-- `type Coin = { id: string }`. -/
structure Coin where
  id : String
deriving DecidableEq

/-- The momento of a `Geocache`: in the source it is the JSON text
`JSON.stringify({id, location, coins})`; we model it by the record that text
serialises. -/
structure GeocacheState where
  id : String
  location : Coordinates
  coins : List Coin
deriving DecidableEq

/-- `class Geocache implements Momento<string>`. -/
structure Geocache where
  id : String
  location : Coordinates
  coins : List Coin
deriving DecidableEq

/-- `toMomento(): string` — serialises id, location and coins. -/
def Geocache.toMomento (c : Geocache) : GeocacheState :=
  { id := c.id, location := c.location, coins := c.coins }

/-- `fromMomento(momento: string): void` — rebuilds a cache from a momento
(modelled functionally: the mutated-in-place receiver is the result). -/
def fromMomento (m : GeocacheState) : Geocache :=
  { id := m.id, location := m.location, coins := m.coins }

/-! ### Constants -/

def INITIAL_LAT : ℚ := 369895 / 10000
def INITIAL_LNG : ℚ := -1220627 / 10000
def GRID_SIZE : ℚ := 1 / 10000
def CACHE_PROBABILITY : ℚ := 1 / 10
def RANGE : ℤ := 8

/-- `latLngToCell` — `Math.floor(lat / GRID_SIZE)`, `Math.floor(lng / GRID_SIZE)`.
The `cellCache` flyweight only interns the result and never changes it, so it
is dropped from the model. -/
def latLngToCell (p : Coordinates) : Cell :=
  { i := ⌊p.lat / GRID_SIZE⌋, j := ⌊p.lng / GRID_SIZE⌋ }

/-! ### The cache state store (`const cacheState: Map<string, string>`) -/

/-- A JS `Map` from cache id to momento, as an insertion-ordered association
list. -/
def Store := List (String × GeocacheState)
deriving DecidableEq

instance : Membership String Store :=
  ⟨fun st k => k ∈ (List.map Prod.fst st)⟩

/-- `Map.get` / `Map.has`. -/
def Store.get? (st : Store) (k : String) : Option GeocacheState :=
  (List.find? (fun p => p.1 == k) st).map Prod.snd

/-- `Map.set`: updates the value in place when the key is present, appends
otherwise. -/
def Store.set (st : Store) (k : String) (v : GeocacheState) : Store :=
  match st with
  | [] => [(k, v)]
  | p :: rest =>
    if p.1 == k then (k, v) :: rest else p :: Store.set rest k v

/-- Keys of the store, in order. -/
def Store.keys (st : Store) : List String := List.map Prod.fst st

/-- Total number of coins recorded in the store. -/
def Store.totalCoins (st : Store) : ℕ :=
  (List.map (fun p => p.2.coins.length) st).sum

/-! ### Deterministic generator -/

/-- Cache identity `` `cache_${cell.i}_${cell.j}` ``. -/
def cacheIdOf (cell : Cell) : String :=
  let i := cell.i
  let j := cell.j
  s!"cache_{i}_{j}"

/-- Coin identity `` `${cell.i}:${cell.j}#${coinSerial}` ``. -/
def coinIdOf (cell : Cell) (serial : ℕ) : String :=
  let i := cell.i
  let j := cell.j
  s!"{i}:{j}#{serial}"

/-- `generateCache(cell)`, threading the `cacheState` store it writes to.
`dr` stands for `deterministicRandom`.  `Math.floor(x * 5)` with the
subsequent `for` loop yields `max 0 ⌊x*5⌋` coins, i.e. `Int.toNat`. -/
def generateCache (dr : ℤ → ℚ) (st : Store) (cell : Cell) :
    Option Geocache × Store :=
  if dr (cell.i * RANGE + cell.j) < CACHE_PROBABILITY then
    let id := cacheIdOf cell
    let location : Coordinates := { lat := cell.i * GRID_SIZE, lng := cell.j * GRID_SIZE }
    let numCoins : ℕ := (⌊dr (cell.i + cell.j + 1) * 5⌋).toNat
    let coins : List Coin := (List.range numCoins).map (fun serial => { id := coinIdOf cell serial })
    let cache : Geocache := { id := id, location := location, coins := coins }
    (some cache, st.set id cache.toMomento)
  else
    (none, st)

/-- `restoreCache(cacheId)`. -/
def restoreCache (st : Store) (cacheId : String) : Option Geocache :=
  match st.get? cacheId with
  | some momento => some (fromMomento momento)
  | none => none

/-! ### Player -/

/-- `visitedCaches: Set<string>` — `Set.add` appends only if absent. -/
def insertVisited (cacheId : String) (v : List String) : List String :=
  if cacheId ∈ v then v else v ++ [cacheId]

/-- `class Player`. -/
structure Player where
  position : Coordinates
  coins : List Coin
  visitedCaches : List String
deriving DecidableEq

/-- `Player.move(direction)`: `switch` over the direction string; an unknown
direction falls through with no change. -/
def Player.move (direction : String) (p : Player) : Player :=
  if direction == "north" then { p with position := { p.position with lat := p.position.lat + GRID_SIZE } }
  else if direction == "south" then { p with position := { p.position with lat := p.position.lat - GRID_SIZE } }
  else if direction == "east" then { p with position := { p.position with lng := p.position.lng + GRID_SIZE } }
  else if direction == "west" then { p with position := { p.position with lng := p.position.lng - GRID_SIZE } }
  else p

/-- `Player.collectCoin(coin, cacheId)`. -/
def Player.collectCoin (coin : Coin) (cacheId : String) (p : Player) : Player :=
  { p with coins := p.coins ++ [coin], visitedCaches := insertVisited cacheId p.visitedCaches }

/-! ### Session blob (`localStorage` contents) as structured JSON -/

/-- A JSON value, modelling the text stored under the `"gameState"` key by
its parsed value; an object's field list models the parsed object's fields,
whose keys are unique (`JSON.parse` keeps one entry per key). -/
inductive Json where
  | null : Json
  | num : ℚ → Json
  | str : String → Json
  | arr : List Json → Json
  | obj : List (String × Json) → Json

/-- The aggregate `saveGameState` serialises:
`{ player, inventory, caches, history }`. -/
structure SessionState where
  player : Coordinates
  inventory : List Coin
  caches : List (String × GeocacheState)
  history : List Coordinates
deriving DecidableEq

/-! ### Whole-program state -/

/-- The module-level mutable state of `main.ts`: the player, the visible
cache list `cacheLocations`, the store `cacheState`, `movementHistory`, and
the durable `localStorage` blob. -/
structure GameState where
  player : Player
  cacheLocations : List Geocache
  cacheState : Store
  movementHistory : List Coordinates
  savedBlob : Option Json

/-! ### World view -/

/-- The loop offsets `-RANGE .. RANGE` in order. -/
def offsets : List ℤ := (List.range (2 * 8 + 1)).map (fun (k : ℕ) => (k : ℤ) - RANGE)

/-- The `(2·RANGE+1)²` cells scanned by `updateVisibleCaches`, in loop
order (outer `i`, inner `j`). -/
def squareCells (center : Cell) : List Cell :=
  offsets.flatMap (fun di => offsets.map (fun dj => { i := center.i + di, j := center.j + dj }))

/-- The body of the double loop in `updateVisibleCaches`: resolve each cell
from the store (restore) or the generator, threading the store the generator
writes to, and collect the present caches in order. -/
def visibleLoop (dr : ℤ → ℚ) : List Cell → Store → List Geocache × Store
  | [], st => ([], st)
  | cell :: cells, st =>
    let resolved :=
      match st.get? (cacheIdOf cell) with
      | some _ =>
        (match restoreCache st (cacheIdOf cell) with
         | some c => (some c, st)
         | none => (none, st))
      | none => generateCache dr st cell
    let rest := visibleLoop dr cells resolved.2
    ((match resolved.1 with
      | some c => c :: rest.1
      | none => rest.1), rest.2)

/-- `updateVisibleCaches()`: rebuilds `cacheLocations` from the square around
the player's cell, possibly generating (and storing) first-time caches.
Marker bookkeeping is UI-only and dropped. -/
def updateVisibleCaches (dr : ℤ → ℚ) (s : GameState) : GameState :=
  let playerCell := latLngToCell s.player.position
  let r := visibleLoop dr (squareCells playerCell) s.cacheState
  { s with cacheLocations := r.1, cacheState := r.2 }

/-! ### Coin transfer -/

/-- Replace the first cache with the given id (the object `find` returned and
the handler mutated in place). -/
def setFirstCache (cacheId : String) (c' : Geocache) : List Geocache → List Geocache
  | [] => []
  | c :: rest => if c.id == cacheId then c' :: rest else c :: setFirstCache cacheId c' rest

/-- `collectCoins(cacheId)`: no-op (alert) if the cache is not among
`cacheLocations` or is empty; otherwise pop the cache's last coin, push it to
the player (also marking the cache visited), and write the updated momento to
`cacheState`. -/
def collectCoins (cacheId : String) (s : GameState) : GameState :=
  match List.find? (fun c => c.id == cacheId) s.cacheLocations with
  | none => s
  | some cache =>
    match cache.coins.getLast? with
    | none => s
    | some coin =>
      let cache' : Geocache := { cache with coins := cache.coins.dropLast }
      { s with
        player := Player.collectCoin coin cache.id s.player
        cacheLocations := setFirstCache cacheId cache' s.cacheLocations
        cacheState := s.cacheState.set cache'.id cache'.toMomento }

/-- `depositCoins(cacheId)`: no-op (alert) if the cache is not among
`cacheLocations` or the player holds no coins; otherwise `Player.depositCoin`
pops the player's last coin onto the cache, and the updated momento is
written to `cacheState`. -/
def depositCoins (cacheId : String) (s : GameState) : GameState :=
  match List.find? (fun c => c.id == cacheId) s.cacheLocations with
  | none => s
  | some cache =>
    match s.player.coins.getLast? with
    | none => s
    | some coin =>
      let cache' : Geocache := { cache with coins := cache.coins ++ [coin] }
      { s with
        player := { s.player with coins := s.player.coins.dropLast }
        cacheLocations := setFirstCache cacheId cache' s.cacheLocations
        cacheState := s.cacheState.set cache'.id cache'.toMomento }

/-! ### Session persistence (`saveGameState` / `restoreGameState`) -/

def encodeCoordinates (p : Coordinates) : Json :=
  Json.obj [("lat", Json.num p.lat), ("lng", Json.num p.lng)]

def encodeCoin (c : Coin) : Json :=
  Json.obj [("id", Json.str c.id)]

def encodeMomento (m : GeocacheState) : Json :=
  Json.obj [("id", Json.str m.id), ("location", encodeCoordinates m.location),
            ("coins", Json.arr (m.coins.map encodeCoin))]

/-- `JSON.stringify` of the aggregate in `saveGameState`; `Array.from(
cacheState.entries())` becomes an array of two-element arrays. -/
def encodeSession (s : SessionState) : Json :=
  Json.obj [("player", encodeCoordinates s.player),
            ("inventory", Json.arr (s.inventory.map encodeCoin)),
            ("caches", Json.arr (s.caches.map (fun p => Json.arr [Json.str p.1, encodeMomento p.2]))),
            ("history", Json.arr (s.history.map encodeCoordinates))]

/-- Field lookup in a JSON object. -/
def jField (fields : List (String × Json)) (k : String) : Option Json :=
  (List.find? (fun p => p.1 == k) fields).map Prod.snd

def decodeCoordinates : Json → Option Coordinates
  | Json.obj fields =>
    match jField fields "lat", jField fields "lng" with
    | some (Json.num lat), some (Json.num lng) => some { lat := lat, lng := lng }
    | _, _ => none
  | _ => none

def decodeCoin : Json → Option Coin
  | Json.obj fields =>
    match jField fields "id" with
    | some (Json.str id) => some { id := id }
    | _ => none
  | _ => none

def decodeMomento : Json → Option GeocacheState
  | Json.obj fields =>
    match jField fields "id", jField fields "location", jField fields "coins" with
    | some (Json.str id), some loc, some (Json.arr coins) =>
      match decodeCoordinates loc, (coins.map decodeCoin).allSome with
      | some location, some cs => some { id := id, location := location, coins := cs }
      | _, _ => none
    | _, _, _ => none
  | _ => none

def decodeEntry : Json → Option (String × GeocacheState)
  | Json.arr [Json.str id, momento] =>
    match decodeMomento momento with
    | some m => some (id, m)
    | none => none
  | _ => none

/-- Reading back a blob of the well-formed layout `saveGameState` writes,
mirroring the destructuring and per-field uses in `restoreGameState`
(`history` may be absent or null: `history || []`).  `none` only means the
blob is outside this layout — it does NOT by itself mean the source throws:
the source assigns `player`, `inventory` and the momento fields without any
validation and can complete on garbage there.  See `restoreFromBlob` for the
split into the uniformly-throwing class and the rest. -/
def decodeSession : Json → Option SessionState
  | Json.obj fields =>
    match jField fields "player", jField fields "inventory", jField fields "caches" with
    | some pj, some (Json.arr inv), some (Json.arr caches) =>
      match decodeCoordinates pj, (inv.map decodeCoin).allSome,
            (caches.map decodeEntry).allSome with
      | some player, some inventory, some entries =>
        match jField fields "history" with
        | none => some { player := player, inventory := inventory, caches := entries, history := [] }
        | some Json.null => some { player := player, inventory := inventory, caches := entries, history := [] }
        | some (Json.arr hist) =>
          match (hist.map decodeCoordinates).allSome with
          | some history => some { player := player, inventory := inventory, caches := entries, history := history }
          | none => none
        | some _ => none
      | _, _, _ => none
    | _, _, _ => none
  | _ => none

/-- The aggregate `saveGameState` reads from the live state. -/
def sessionOf (s : GameState) : SessionState :=
  { player := s.player.position, inventory := s.player.coins,
    caches := s.cacheState, history := s.movementHistory }

/-- `saveGameState()`: `localStorage.setItem("gameState", JSON.stringify(state))`. -/
def saveGameState (s : GameState) : GameState :=
  { s with savedBlob := some (encodeSession (sessionOf s)) }

/-- `updateMovementHistory()`: appends the current position to the trail
(the polyline redraw is UI-only). -/
def updateMovementHistory (s : GameState) : GameState :=
  { s with movementHistory := s.movementHistory ++ [s.player.position] }

/-- The movement-button click handler in `renderButtons`: move, recenter the
map (UI), refresh visible caches, re-render the inventory (UI), save. -/
def moveButtonStep (dr : ℤ → ℚ) (direction : String) (s : GameState) : GameState :=
  saveGameState (updateVisibleCaches dr { s with player := Player.move direction s.player })

/-- The `caches` array the restore loop iterates, when the parsed blob can
supply one: the blob must be an object whose `caches` field is an array.
Exactly outside this class the source throws uniformly before completing:
destructuring `null` is a TypeError, and for any other non-object (string,
number, array) the destructured fields are `undefined`, so — as when the
field is missing or not an array — `caches.forEach` is a TypeError. -/
def cachesArray? : Json → Option (List Json)
  | Json.obj fields =>
    match jField fields "caches" with
    | some (Json.arr entries) => some entries
    | _ => none
  | _ => none

/-- Outcome of the restore step.  `thrown` records only the control flow —
the exception escapes the `DOMContentLoaded` handler and the remaining
initialization never runs; the partially assigned globals it leaves behind
are not modelled.  `unmodelled` covers blobs that do supply a `caches` array
but fall outside the well-formed layout: there the source flows
dynamically-typed values (e.g. a numeric `inventory`) into the state without
validation and may complete; the typed model asserts nothing about them. -/
inductive RestoreOutcome where
  | ok (s : GameState)
  | thrown
  | unmodelled

/-- The body of `restoreGameState` for a present blob: throw when no `caches`
array can be iterated; on a well-formed blob replace position, inventory and
history, rebuild `cacheState` through a momento round-trip, then refresh the
world view and append to the movement trail. -/
def restoreFromBlob (dr : ℤ → ℚ) (blob : Json) (s : GameState) : RestoreOutcome :=
  match cachesArray? blob with
  | none => RestoreOutcome.thrown
  | some _ =>
    match decodeSession blob with
    | none => RestoreOutcome.unmodelled
    | some sess =>
      let st : Store := sess.caches.foldl (fun acc p => acc.set p.1 (fromMomento p.2).toMomento) []
      let s' : GameState :=
        { s with
          player := { s.player with position := sess.player, coins := sess.inventory }
          movementHistory := sess.history
          cacheState := st }
      RestoreOutcome.ok (updateMovementHistory (updateVisibleCaches dr s'))

/-- `restoreGameState()`: absent blob (`if (state)`) leaves the fresh state
untouched. -/
def restoreGameState (dr : ℤ → ℚ) (s : GameState) : RestoreOutcome :=
  match s.savedBlob with
  | none => RestoreOutcome.ok s
  | some blob => restoreFromBlob dr blob s

/-! ### Spec-side reference definitions -/

/-- Resolution of one cell against a FIXED store: restore when a snapshot is
present, otherwise the generator's verdict.  `updateVisibleCaches` threads
the store it writes through the loop instead; C4 states the two agree. -/
def resolvePure (dr : ℤ → ℚ) (st : Store) (cell : Cell) : Option Geocache :=
  match st.get? (cacheIdOf cell) with
  | some momento => some (fromMomento momento)
  | none => (generateCache dr st cell).1

/-- A coin-transfer call, for sequences of operations. -/
inductive TransferOp where
  | collect (cacheId : String)
  | deposit (cacheId : String)

def applyTransfer (op : TransferOp) (s : GameState) : GameState :=
  match op with
  | TransferOp.collect cacheId => collectCoins cacheId s
  | TransferOp.deposit cacheId => depositCoins cacheId s

def applyTransfers (ops : List TransferOp) (s : GameState) : GameState :=
  ops.foldl (fun s op => applyTransfer op s) s

/-- `totalCoins(player) + sum(totalCoins(cache) for all caches)` with the
store as the authoritative census of cache contents. -/
def totalCoins (s : GameState) : ℕ :=
  s.player.coins.length + s.cacheState.totalCoins

/-- The bookkeeping invariant relating the visible list to the store, true of
every state the program reaches (established by `updateVisibleCaches` /
`generateCache`, maintained by the transfer handlers): store keys are
distinct, visible ids are distinct, and every visible cache's momento is in
the store. -/
def WellFormed (s : GameState) : Prop :=
  (s.cacheLocations.map Geocache.id).Nodup ∧
  ∀ c ∈ s.cacheLocations, s.cacheState.get? c.id = some c.toMomento

instance (s : GameState) : Decidable (WellFormed s) := by
  unfold WellFormed; infer_instance

/-- A deterministic stand-in for `deterministicRandom` used by concrete
witnesses: always 1, so no cell passes the existence test. -/
def drOne : ℤ → ℚ := fun _ => 1

/-- The "new game" initial condition: player at the start coordinate, empty
inventory, empty store, empty trail, nothing persisted. -/
def freshState : GameState :=
  { player := { position := { lat := INITIAL_LAT, lng := INITIAL_LNG }, coins := [], visitedCaches := [] }
    cacheLocations := []
    cacheState := []
    movementHistory := []
    savedBlob := none }

/-- A one-cache, one-coin state used by concrete witnesses: the cache is
visible and its momento is in the store. -/
def wCache : Geocache :=
  { id := "cache_0_0", location := { lat := 0, lng := 0 }, coins := [{ id := "0:0#0" }] }

def wState : GameState :=
  { player := { position := { lat := 0, lng := 0 }, coins := [], visitedCaches := [] }
    cacheLocations := [wCache]
    cacheState := [("cache_0_0", wCache.toMomento)]
    movementHistory := []
    savedBlob := none }

/-- A state whose player holds one coin while no cache is visible. -/
def c3State : GameState :=
  { player := { position := { lat := 0, lng := 0 }, coins := [{ id := "0:0#0" }], visitedCaches := [] }
    cacheLocations := []
    cacheState := []
    movementHistory := []
    savedBlob := none }

/-- Observer: the length of the `inventory` array inside a session blob. -/
def jsonInventoryLength : Json → ℕ
  | Json.obj fields =>
    match jField fields "inventory" with
    | some (Json.arr l) => l.length
    | _ => 0
  | _ => 0

/-- The one-cache state with its own session snapshot persisted (the blob a
preceding move would have written). -/
def c6State : GameState := { wState with savedBlob := some (encodeSession (sessionOf wState)) }

/-! ## Helper lemmas -/

theorem fromMomento_toMomento (c : Geocache) : fromMomento c.toMomento = c := rfl

theorem toMomento_fromMomento (m : GeocacheState) : (fromMomento m).toMomento = m := rfl

theorem Store.get?_set_self (st : Store) (k : String) (v : GeocacheState) :
    (st.set k v).get? k = some v := by
  induction st with
  | nil => simp [Store.set, Store.get?]
  | cons p rest ih =>
    by_cases h : p.1 = k
    · simp [Store.set, Store.get?, h]
    · have hb : (p.1 == k) = false := by simpa using h
      simp only [Store.set, hb, Bool.false_eq_true, if_false]
      simpa [Store.get?, List.find?_cons, hb] using ih

theorem Store.get?_set_ne (st : Store) (k k' : String) (v : GeocacheState) (h : k ≠ k') :
    (st.set k v).get? k' = st.get? k' := by
  induction st with
  | nil => simp [Store.set, Store.get?, h]
  | cons p rest ih =>
    by_cases hp : p.1 = k
    · have hne : (k == k') = false := by simpa using h
      have hpne : (p.1 == k') = false := by simp [hp, h]
      simp [Store.set, Store.get?, hp, List.find?_cons, hne, hpne]
    · have hb : (p.1 == k) = false := by simpa using hp
      simp only [Store.set, hb, Bool.false_eq_true, if_false]
      by_cases hq : p.1 = k'
      · simp [Store.get?, List.find?_cons, hq]
      · have hqb : (p.1 == k') = false := by simpa using hq
        simpa [Store.get?, List.find?_cons, hqb] using ih

theorem Store.totalCoins_set (st : Store) (k : String) (v m : GeocacheState)
    (hget : st.get? k = some m) :
    (st.set k v).totalCoins + m.coins.length = st.totalCoins + v.coins.length := by
  induction st with
  | nil => simp [Store.get?] at hget
  | cons p rest ih =>
    by_cases h : p.1 = k
    · have hb : (p.1 == k) = true := by simpa using h
      have hm : m = p.2 := by
        simp [Store.get?, List.find?_cons, hb] at hget
        exact hget.symm
      simp only [Store.set, hb, if_true]
      simp [Store.totalCoins, hm]
      omega
    · have hb : (p.1 == k) = false := by simpa using h
      have hget' : Store.get? rest k = some m := by
        simpa [Store.get?, List.find?_cons, hb] using hget
      have := ih hget'
      simp only [Store.set, hb, Bool.false_eq_true, if_false]
      simp [Store.totalCoins] at this ⊢
      omega

/-- `find?` splits the visible list around the first id match, and
`setFirstCache` replaces exactly that element. -/
theorem setFirstCache_of_find? {l : List Geocache} {c : Geocache} {cacheId : String}
    (hfind : List.find? (fun x => x.id == cacheId) l = some c) (c' : Geocache) :
    ∃ l1 l2, l = l1 ++ c :: l2 ∧ setFirstCache cacheId c' l = l1 ++ c' :: l2 ∧
      ∀ x ∈ l1, x.id ≠ cacheId := by
  induction l with
  | nil => simp at hfind
  | cons a rest ih =>
    by_cases h : a.id = cacheId
    · have hb : (a.id == cacheId) = true := by simpa using h
      have hac : a = c := by
        simp only [List.find?_cons, hb, cond_true, Option.some.injEq] at hfind
        exact hfind
      exact ⟨[], rest, by simp [hac], by simp [setFirstCache, hb], by simp⟩
    · have hb : (a.id == cacheId) = false := by simpa using h
      simp only [List.find?_cons, hb, cond_false] at hfind
      obtain ⟨l1, l2, h1, h2, h3⟩ := ih hfind
      refine ⟨a :: l1, l2, by simp [h1], by simp [setFirstCache, hb, h2], ?_⟩
      intro x hx
      rcases List.mem_cons.mp hx with hx | hx
      · simpa [hx] using h
      · exact h3 x hx

theorem collectCoins_of_not_found {cacheId : String} {s : GameState}
    (hfind : List.find? (fun c => c.id == cacheId) s.cacheLocations = none) :
    collectCoins cacheId s = s := by
  simp [collectCoins, hfind]

theorem collectCoins_of_empty {cacheId : String} {s : GameState} {cache : Geocache}
    (hfind : List.find? (fun c => c.id == cacheId) s.cacheLocations = some cache)
    (hempty : cache.coins.getLast? = none) :
    collectCoins cacheId s = s := by
  simp [collectCoins, hfind, hempty]

theorem collectCoins_of_success {cacheId : String} {s : GameState} {cache : Geocache} {coin : Coin}
    (hfind : List.find? (fun c => c.id == cacheId) s.cacheLocations = some cache)
    (hlast : cache.coins.getLast? = some coin) :
    collectCoins cacheId s =
      { s with
        player := Player.collectCoin coin cache.id s.player
        cacheLocations := setFirstCache cacheId { cache with coins := cache.coins.dropLast } s.cacheLocations
        cacheState := s.cacheState.set cache.id { cache with coins := cache.coins.dropLast }.toMomento } := by
  simp [collectCoins, hfind, hlast]

theorem depositCoins_of_not_found {cacheId : String} {s : GameState}
    (hfind : List.find? (fun c => c.id == cacheId) s.cacheLocations = none) :
    depositCoins cacheId s = s := by
  simp [depositCoins, hfind]

theorem depositCoins_of_empty {cacheId : String} {s : GameState} {cache : Geocache}
    (hfind : List.find? (fun c => c.id == cacheId) s.cacheLocations = some cache)
    (hempty : s.player.coins.getLast? = none) :
    depositCoins cacheId s = s := by
  simp [depositCoins, hfind, hempty]

theorem depositCoins_of_success {cacheId : String} {s : GameState} {cache : Geocache} {coin : Coin}
    (hfind : List.find? (fun c => c.id == cacheId) s.cacheLocations = some cache)
    (hlast : s.player.coins.getLast? = some coin) :
    depositCoins cacheId s =
      { s with
        player := { s.player with coins := s.player.coins.dropLast }
        cacheLocations := setFirstCache cacheId { cache with coins := cache.coins ++ [coin] } s.cacheLocations
        cacheState := s.cacheState.set cache.id { cache with coins := cache.coins ++ [coin] }.toMomento } := by
  simp [depositCoins, hfind, hlast]

/-- A successful or failed collect preserves well-formedness and the total
coin count. -/
theorem collectCoins_preserves (cacheId : String) (s : GameState) (h : WellFormed s) :
    WellFormed (collectCoins cacheId s) ∧ totalCoins (collectCoins cacheId s) = totalCoins s := by
  cases hfind : List.find? (fun c => c.id == cacheId) s.cacheLocations with
  | none => rw [collectCoins_of_not_found hfind]; exact ⟨h, rfl⟩
  | some cache =>
    cases hlast : cache.coins.getLast? with
    | none => rw [collectCoins_of_empty hfind hlast]; exact ⟨h, rfl⟩
    | some coin =>
      have hid : cache.id = cacheId := by simpa using List.find?_some hfind
      obtain ⟨hnd, hsync⟩ := h
      obtain ⟨l1, l2, hl, hl', hl1⟩ := setFirstCache_of_find? hfind
        { cache with coins := cache.coins.dropLast }
      have hmem : cache ∈ s.cacheLocations := List.mem_of_find?_eq_some hfind
      have hnil : cache.coins ≠ [] := by
        intro hnil; rw [hnil] at hlast; simp at hlast
      have hpos : 0 < cache.coins.length := List.length_pos.mpr hnil
      have hget : s.cacheState.get? cache.id = some cache.toMomento := hsync cache hmem
      have hl2 : ∀ x ∈ l2, x.id ≠ cacheId := by
        intro x hx hxid
        rw [hl] at hnd
        simp only [List.map_append, List.map_cons] at hnd
        have h2 := (List.nodup_append.mp hnd).2
        have hc := List.nodup_cons.mp h2.1
        exact hc.1 (by rw [hid, ← hxid]; exact List.mem_map_of_mem Geocache.id hx)
      have hids : (setFirstCache cacheId { cache with coins := cache.coins.dropLast }
          s.cacheLocations).map Geocache.id = s.cacheLocations.map Geocache.id := by
        rw [hl']; rw [hl]; simp
      rw [collectCoins_of_success hfind hlast]
      unfold WellFormed
      refine ⟨⟨?_, ?_⟩, ?_⟩
      · show ((setFirstCache cacheId { cache with coins := cache.coins.dropLast }
            s.cacheLocations).map Geocache.id).Nodup
        rw [hids]; exact hnd
      · intro x hx
        have hx' : x ∈ setFirstCache cacheId { cache with coins := cache.coins.dropLast }
            s.cacheLocations := hx
        show (s.cacheState.set cache.id
            ({ cache with coins := cache.coins.dropLast } : Geocache).toMomento).get? x.id
          = some x.toMomento
        rw [hl'] at hx'
        rcases List.mem_append.mp hx' with hx1 | hx2
        · have hne : cache.id ≠ x.id := by
            rw [hid]; exact fun hc => hl1 x hx1 hc.symm
          rw [Store.get?_set_ne _ _ _ _ hne]
          exact hsync x (by rw [hl]; exact List.mem_append.mpr (Or.inl hx1))
        · rcases List.mem_cons.mp hx2 with hx2 | hx2
          · subst hx2
            exact Store.get?_set_self _ _ _
          · have hne : cache.id ≠ x.id := by
              rw [hid]; exact fun hc => hl2 x hx2 hc.symm
            rw [Store.get?_set_ne _ _ _ _ hne]
            exact hsync x (by rw [hl]; exact List.mem_append.mpr (Or.inr (List.mem_cons_of_mem _ hx2)))
      · have htot := Store.totalCoins_set s.cacheState cache.id
          ({ cache with coins := cache.coins.dropLast } : Geocache).toMomento cache.toMomento hget
        have hx : cache.toMomento.coins.length = cache.coins.length := rfl
        have hy : ({ cache with coins := cache.coins.dropLast } : Geocache).toMomento.coins.length
            = cache.coins.length - 1 := by
          simp [Geocache.toMomento]
        rw [hx, hy] at htot
        show (s.player.coins ++ [coin]).length
            + (s.cacheState.set cache.id
                ({ cache with coins := cache.coins.dropLast } : Geocache).toMomento).totalCoins
          = s.player.coins.length + s.cacheState.totalCoins
        simp only [List.length_append, List.length_cons, List.length_nil]
        omega

/-- A successful or failed deposit preserves well-formedness and the total
coin count. -/
theorem depositCoins_preserves (cacheId : String) (s : GameState) (h : WellFormed s) :
    WellFormed (depositCoins cacheId s) ∧ totalCoins (depositCoins cacheId s) = totalCoins s := by
  cases hfind : List.find? (fun c => c.id == cacheId) s.cacheLocations with
  | none => rw [depositCoins_of_not_found hfind]; exact ⟨h, rfl⟩
  | some cache =>
    cases hlast : s.player.coins.getLast? with
    | none => rw [depositCoins_of_empty hfind hlast]; exact ⟨h, rfl⟩
    | some coin =>
      have hid : cache.id = cacheId := by simpa using List.find?_some hfind
      obtain ⟨hnd, hsync⟩ := h
      obtain ⟨l1, l2, hl, hl', hl1⟩ := setFirstCache_of_find? hfind
        { cache with coins := cache.coins ++ [coin] }
      have hmem : cache ∈ s.cacheLocations := List.mem_of_find?_eq_some hfind
      have hnil : s.player.coins ≠ [] := by
        intro hnil; rw [hnil] at hlast; simp at hlast
      have hpos : 0 < s.player.coins.length := List.length_pos.mpr hnil
      have hget : s.cacheState.get? cache.id = some cache.toMomento := hsync cache hmem
      have hl2 : ∀ x ∈ l2, x.id ≠ cacheId := by
        intro x hx hxid
        rw [hl] at hnd
        simp only [List.map_append, List.map_cons] at hnd
        have h2 := (List.nodup_append.mp hnd).2
        have hc := List.nodup_cons.mp h2.1
        exact hc.1 (by rw [hid, ← hxid]; exact List.mem_map_of_mem Geocache.id hx)
      have hids : (setFirstCache cacheId { cache with coins := cache.coins ++ [coin] }
          s.cacheLocations).map Geocache.id = s.cacheLocations.map Geocache.id := by
        rw [hl']; rw [hl]; simp
      rw [depositCoins_of_success hfind hlast]
      unfold WellFormed
      refine ⟨⟨?_, ?_⟩, ?_⟩
      · show ((setFirstCache cacheId { cache with coins := cache.coins ++ [coin] }
            s.cacheLocations).map Geocache.id).Nodup
        rw [hids]; exact hnd
      · intro x hx
        have hx' : x ∈ setFirstCache cacheId { cache with coins := cache.coins ++ [coin] }
            s.cacheLocations := hx
        show (s.cacheState.set cache.id
            ({ cache with coins := cache.coins ++ [coin] } : Geocache).toMomento).get? x.id
          = some x.toMomento
        rw [hl'] at hx'
        rcases List.mem_append.mp hx' with hx1 | hx2
        · have hne : cache.id ≠ x.id := by
            rw [hid]; exact fun hc => hl1 x hx1 hc.symm
          rw [Store.get?_set_ne _ _ _ _ hne]
          exact hsync x (by rw [hl]; exact List.mem_append.mpr (Or.inl hx1))
        · rcases List.mem_cons.mp hx2 with hx2 | hx2
          · subst hx2
            exact Store.get?_set_self _ _ _
          · have hne : cache.id ≠ x.id := by
              rw [hid]; exact fun hc => hl2 x hx2 hc.symm
            rw [Store.get?_set_ne _ _ _ _ hne]
            exact hsync x (by rw [hl]; exact List.mem_append.mpr (Or.inr (List.mem_cons_of_mem _ hx2)))
      · have htot := Store.totalCoins_set s.cacheState cache.id
          ({ cache with coins := cache.coins ++ [coin] } : Geocache).toMomento cache.toMomento hget
        have hx : cache.toMomento.coins.length = cache.coins.length := rfl
        have hy : ({ cache with coins := cache.coins ++ [coin] } : Geocache).toMomento.coins.length
            = cache.coins.length + 1 := by
          simp [Geocache.toMomento]
        rw [hx, hy] at htot
        show s.player.coins.dropLast.length
            + (s.cacheState.set cache.id
                ({ cache with coins := cache.coins ++ [coin] } : Geocache).toMomento).totalCoins
          = s.player.coins.length + s.cacheState.totalCoins
        simp only [List.length_dropLast]
        omega

/-- The generator's returned cache does not depend on the store it writes to. -/
theorem generateCache_fst (dr : ℤ → ℚ) (st st' : Store) (cell : Cell) :
    (generateCache dr st cell).1 = (generateCache dr st' cell).1 := by
  by_cases h : dr (cell.i * RANGE + cell.j) < CACHE_PROBABILITY <;>
    simp [generateCache, h]

theorem generateCache_id {dr : ℤ → ℚ} {st : Store} {cell : Cell} {g : Geocache}
    (h : (generateCache dr st cell).1 = some g) : g.id = cacheIdOf cell := by
  unfold generateCache at h
  split at h
  · simp only [Option.some.injEq] at h
    rw [← h]
  · simp at h

theorem generateCache_snd_absent {dr : ℤ → ℚ} {st : Store} {cell : Cell}
    (h : (generateCache dr st cell).1 = none) :
    (generateCache dr st cell).2 = st := by
  unfold generateCache at h ⊢
  split at h
  · simp at h
  · next hc => simp [hc]

theorem generateCache_snd_present {dr : ℤ → ℚ} {st : Store} {cell : Cell} {g : Geocache}
    (h : (generateCache dr st cell).1 = some g) :
    (generateCache dr st cell).2 = st.set (cacheIdOf cell) g.toMomento := by
  unfold generateCache at h ⊢
  split at h
  · next hc =>
    simp only [Option.some.injEq] at h
    rw [← h]
    simp [hc]
  · simp at h

theorem resolvePure_congr (dr : ℤ → ℚ) {st1 st2 : Store} (cell : Cell)
    (h : st1.get? (cacheIdOf cell) = st2.get? (cacheIdOf cell)) :
    resolvePure dr st1 cell = resolvePure dr st2 cell := by
  unfold resolvePure
  rw [h]
  cases hc : st2.get? (cacheIdOf cell) with
  | some m => rfl
  | none => exact generateCache_fst dr st1 st2 cell

/-- One loop step when the store already holds a snapshot for the cell. -/
theorem visibleLoop_cons_hit {dr : ℤ → ℚ} {st : Store} {cell : Cell} (m : GeocacheState)
    (h : st.get? (cacheIdOf cell) = some m) (cells : List Cell) :
    visibleLoop dr (cell :: cells) st =
      (fromMomento m :: (visibleLoop dr cells st).1, (visibleLoop dr cells st).2) := by
  have hr : restoreCache st (cacheIdOf cell) = some (fromMomento m) := by
    unfold restoreCache; rw [h]
  rw [visibleLoop]
  rw [h, hr]

/-- One loop step when the cell is new and the generator says absent. -/
theorem visibleLoop_cons_miss_absent {dr : ℤ → ℚ} {st : Store} {cell : Cell}
    (h : st.get? (cacheIdOf cell) = none)
    (hgen : (generateCache dr st cell).1 = none) (cells : List Cell) :
    visibleLoop dr (cell :: cells) st = visibleLoop dr cells st := by
  rw [visibleLoop]
  rw [h]
  show ((match (generateCache dr st cell).1 with
         | some c => c :: (visibleLoop dr cells (generateCache dr st cell).2).1
         | none => (visibleLoop dr cells (generateCache dr st cell).2).1),
        (visibleLoop dr cells (generateCache dr st cell).2).2) = _
  rw [hgen, generateCache_snd_absent hgen]

/-- One loop step when the cell is new and the generator produces a cache. -/
theorem visibleLoop_cons_miss_present {dr : ℤ → ℚ} {st : Store} {cell : Cell} {g : Geocache}
    (h : st.get? (cacheIdOf cell) = none)
    (hgen : (generateCache dr st cell).1 = some g) (cells : List Cell) :
    visibleLoop dr (cell :: cells) st =
      (g :: (visibleLoop dr cells (st.set (cacheIdOf cell) g.toMomento)).1,
        (visibleLoop dr cells (st.set (cacheIdOf cell) g.toMomento)).2) := by
  rw [visibleLoop]
  rw [h]
  show ((match (generateCache dr st cell).1 with
         | some c => c :: (visibleLoop dr cells (generateCache dr st cell).2).1
         | none => (visibleLoop dr cells (generateCache dr st cell).2).1),
        (visibleLoop dr cells (generateCache dr st cell).2).2) = _
  rw [hgen, generateCache_snd_present hgen]

/-- With pairwise-distinct cache ids, threading the store through the loop is
irrelevant: the visible list is the filterMap of per-cell resolution against
the store as it was before the loop. -/
theorem visibleLoop_fst (dr : ℤ → ℚ) (cells : List Cell) (st : Store)
    (h : cells.Pairwise (fun a b => cacheIdOf a ≠ cacheIdOf b)) :
    (visibleLoop dr cells st).1 = cells.filterMap (resolvePure dr st) := by
  induction cells generalizing st with
  | nil => rfl
  | cons cell cells ih =>
    obtain ⟨hhead, htail⟩ := List.pairwise_cons.mp h
    cases hget : st.get? (cacheIdOf cell) with
    | some m =>
      have hres : resolvePure dr st cell = some (fromMomento m) := by
        unfold resolvePure; rw [hget]
      rw [visibleLoop_cons_hit m hget]
      simp [List.filterMap_cons, hres, ih st htail]
    | none =>
      cases hgen : (generateCache dr st cell).1 with
      | none =>
        have hres : resolvePure dr st cell = none := by
          unfold resolvePure; rw [hget]; exact hgen
        rw [visibleLoop_cons_miss_absent hget hgen]
        simp [List.filterMap_cons, hres, ih st htail]
      | some g =>
        have hres : resolvePure dr st cell = some g := by
          unfold resolvePure; rw [hget]; exact hgen
        rw [visibleLoop_cons_miss_present hget hgen]
        have hcong : ∀ c' ∈ cells,
            resolvePure dr (st.set (cacheIdOf cell) g.toMomento) c' = resolvePure dr st c' := by
          intro c' hc'
          exact resolvePure_congr dr c' (Store.get?_set_ne _ _ _ _ (hhead c' hc'))
        rw [ih _ htail, List.filterMap_congr hcong]
        simp [List.filterMap_cons, hres]

/-- The loop never touches store keys that are not ids of its cells. -/
theorem visibleLoop_snd_get?_of_ne (dr : ℤ → ℚ) (cells : List Cell) (st : Store) (k : String)
    (h : ∀ c ∈ cells, cacheIdOf c ≠ k) :
    ((visibleLoop dr cells st).2).get? k = st.get? k := by
  induction cells generalizing st with
  | nil => rfl
  | cons cell cells ih =>
    have hk : cacheIdOf cell ≠ k := h cell (by simp)
    have htail : ∀ c ∈ cells, cacheIdOf c ≠ k := fun c hc => h c (by simp [hc])
    cases hget : st.get? (cacheIdOf cell) with
    | some m =>
      rw [visibleLoop_cons_hit m hget]
      exact ih st htail
    | none =>
      cases hgen : (generateCache dr st cell).1 with
      | none =>
        rw [visibleLoop_cons_miss_absent hget hgen]
        exact ih st htail
      | some g =>
        rw [visibleLoop_cons_miss_present hget hgen]
        show ((visibleLoop dr cells (st.set (cacheIdOf cell) g.toMomento)).2).get? k = st.get? k
        rw [ih _ htail]
        exact Store.get?_set_ne _ _ _ _ hk

/-- After the loop, the store entry of each scanned cell is its prior
snapshot if there was one, else the generated cache's momento (if any). -/
theorem visibleLoop_snd_get?_mem (dr : ℤ → ℚ) (cells : List Cell) (st : Store) (c : Cell)
    (h : cells.Pairwise (fun a b => cacheIdOf a ≠ cacheIdOf b)) (hc : c ∈ cells) :
    ((visibleLoop dr cells st).2).get? (cacheIdOf c) =
      match st.get? (cacheIdOf c) with
      | some m => some m
      | none => ((generateCache dr st c).1).map Geocache.toMomento := by
  induction cells generalizing st with
  | nil => simp at hc
  | cons cell cells ih =>
    obtain ⟨hhead, htail⟩ := List.pairwise_cons.mp h
    rcases List.mem_cons.mp hc with rfl | hc'
    · have hne : ∀ x ∈ cells, cacheIdOf x ≠ cacheIdOf c :=
        fun x hx => (hhead x hx).symm
      cases hget : st.get? (cacheIdOf c) with
      | some m =>
        rw [visibleLoop_cons_hit m hget]
        show ((visibleLoop dr cells st).2).get? (cacheIdOf c) = _
        rw [visibleLoop_snd_get?_of_ne dr cells st _ hne, hget]
      | none =>
        cases hgen : (generateCache dr st c).1 with
        | none =>
          rw [visibleLoop_cons_miss_absent hget hgen]
          rw [visibleLoop_snd_get?_of_ne dr cells st _ hne, hget]
          rfl
        | some g =>
          rw [visibleLoop_cons_miss_present hget hgen]
          show ((visibleLoop dr cells (st.set (cacheIdOf c) g.toMomento)).2).get? (cacheIdOf c) = _
          rw [visibleLoop_snd_get?_of_ne dr cells _ _ hne]
          rw [Store.get?_set_self]
          rfl
    · have hne : cacheIdOf cell ≠ cacheIdOf c := hhead c hc'
      cases hget : st.get? (cacheIdOf cell) with
      | some m =>
        rw [visibleLoop_cons_hit m hget]
        exact ih st htail hc'
      | none =>
        cases hgen : (generateCache dr st cell).1 with
        | none =>
          rw [visibleLoop_cons_miss_absent hget hgen]
          exact ih st htail hc'
        | some g =>
          rw [visibleLoop_cons_miss_present hget hgen]
          show ((visibleLoop dr cells (st.set (cacheIdOf cell) g.toMomento)).2).get? (cacheIdOf c) = _
          rw [ih _ htail hc']
          rw [Store.get?_set_ne _ _ _ _ hne]
          rw [generateCache_fst dr (st.set (cacheIdOf cell) g.toMomento) st c]

theorem updateVisibleCaches_cacheLocations (dr : ℤ → ℚ) (s : GameState) :
    (updateVisibleCaches dr s).cacheLocations
      = (visibleLoop dr (squareCells (latLngToCell s.player.position)) s.cacheState).1 := by
  unfold updateVisibleCaches
  simp only []

theorem updateVisibleCaches_cacheState (dr : ℤ → ℚ) (s : GameState) :
    (updateVisibleCaches dr s).cacheState
      = (visibleLoop dr (squareCells (latLngToCell s.player.position)) s.cacheState).2 := by
  unfold updateVisibleCaches
  simp only []

theorem updateVisibleCaches_player (dr : ℤ → ℚ) (s : GameState) :
    (updateVisibleCaches dr s).player = s.player := by
  unfold updateVisibleCaches
  simp only []

/-! ### Injectivity of the cache-id scheme

`cache_${i}_${j}` determines the cell: decimal renderings of integers are
injective, contain no underscore, and the underscore separator splits
unambiguously. -/

def digitVal (c : Char) : ℕ := c.toNat - 48

def strVal (l : List Char) : ℕ := l.foldl (fun acc c => acc * 10 + digitVal c) 0

theorem digitVal_digitChar : ∀ k, k < 10 → digitVal (Nat.digitChar k) = k := by decide

theorem digitChar_ne_dash : ∀ k, k < 10 → Nat.digitChar k ≠ '-' := by decide

theorem digitChar_ne_underscore : ∀ k, k < 10 → Nat.digitChar k ≠ '_' := by decide

theorem toDigitsCore_append (f : ℕ) : ∀ (n : ℕ) (ds : List Char),
    Nat.toDigitsCore 10 f n ds = Nat.toDigitsCore 10 f n [] ++ ds := by
  induction f with
  | zero => intro n ds; rfl
  | succ f ih =>
    intro n ds
    simp only [Nat.toDigitsCore]
    by_cases h : n / 10 = 0
    · simp [h]
    · simp only [h, if_false]
      rw [ih (n / 10) (Nat.digitChar (n % 10) :: ds), ih (n / 10) [Nat.digitChar (n % 10)]]
      simp

theorem strVal_toDigitsCore (f : ℕ) : ∀ n, n < f →
    strVal (Nat.toDigitsCore 10 f n []) = n := by
  induction f with
  | zero => intro n hn; omega
  | succ f ih =>
    intro n hn
    have hmod : n % 10 < 10 := Nat.mod_lt _ (by norm_num)
    simp only [Nat.toDigitsCore]
    by_cases h : n / 10 = 0
    · have h10 : n < 10 := by omega
      simp only [h, if_true]
      show strVal [Nat.digitChar (n % 10)] = n
      simp [strVal, digitVal_digitChar _ hmod]
      omega
    · simp only [h, if_false]
      rw [toDigitsCore_append]
      have hsnoc : strVal (Nat.toDigitsCore 10 f (n / 10) [] ++ [Nat.digitChar (n % 10)])
          = strVal (Nat.toDigitsCore 10 f (n / 10) []) * 10 + digitVal (Nat.digitChar (n % 10)) := by
        simp [strVal, List.foldl_append]
      rw [hsnoc, ih (n / 10) (by omega), digitVal_digitChar _ hmod]
      omega

theorem strVal_natRepr (n : ℕ) : strVal (Nat.repr n).data = n := by
  show strVal (Nat.toDigitsCore 10 (n + 1) n []) = n
  exact strVal_toDigitsCore (n + 1) n (by omega)

theorem natRepr_injective {a b : ℕ} (h : Nat.repr a = Nat.repr b) : a = b := by
  have := congrArg (fun s => strVal s.data) h
  simpa [strVal_natRepr] using this

theorem toDigitsCore_digits (f : ℕ) : ∀ n (ds : List Char),
    (∀ c ∈ ds, ∃ k, k < 10 ∧ c = Nat.digitChar k) →
    ∀ c ∈ Nat.toDigitsCore 10 f n ds, ∃ k, k < 10 ∧ c = Nat.digitChar k := by
  induction f with
  | zero => intro n ds hds; exact hds
  | succ f ih =>
    intro n ds hds c hc
    have hmod : n % 10 < 10 := Nat.mod_lt _ (by norm_num)
    simp only [Nat.toDigitsCore] at hc
    by_cases h : n / 10 = 0
    · simp only [h, if_true] at hc
      rcases List.mem_cons.mp hc with rfl | hc2
      · exact ⟨n % 10, hmod, rfl⟩
      · exact hds c hc2
    · simp only [h, if_false] at hc
      refine ih (n / 10) _ ?_ c hc
      intro c2 hc2
      rcases List.mem_cons.mp hc2 with rfl | hc3
      · exact ⟨n % 10, hmod, rfl⟩
      · exact hds c2 hc3

theorem natRepr_digits (n : ℕ) : ∀ c ∈ (Nat.repr n).data, ∃ k, k < 10 ∧ c = Nat.digitChar k := by
  show ∀ c ∈ Nat.toDigitsCore 10 (n + 1) n [], _
  exact toDigitsCore_digits (n + 1) n [] (by simp)

theorem intToString_data_ofNat (m : ℕ) :
    (toString (Int.ofNat m)).data = (Nat.repr m).data := rfl

theorem intToString_data_negSucc (m : ℕ) :
    (toString (Int.negSucc m)).data = '-' :: (Nat.repr (m + 1)).data := rfl

theorem intToString_no_underscore (i : ℤ) : '_' ∉ (toString i).data := by
  cases i with
  | ofNat m =>
    rw [intToString_data_ofNat]
    intro hmem
    obtain ⟨k, hk, hc⟩ := natRepr_digits m '_' hmem
    exact digitChar_ne_underscore k hk hc.symm
  | negSucc m =>
    rw [intToString_data_negSucc]
    intro hmem
    rcases List.mem_cons.mp hmem with h | hmem2
    · exact absurd h.symm (by decide)
    · obtain ⟨k, hk, hc⟩ := natRepr_digits (m + 1) '_' hmem2
      exact digitChar_ne_underscore k hk hc.symm

theorem intToString_injective {a b : ℤ} (h : toString a = toString b) : a = b := by
  have hd := congrArg String.data h
  cases a with
  | ofNat m =>
    cases b with
    | ofNat m2 =>
      rw [intToString_data_ofNat, intToString_data_ofNat] at hd
      have : Nat.repr m = Nat.repr m2 := String.ext hd
      rw [natRepr_injective this]
    | negSucc m2 =>
      exfalso
      rw [intToString_data_ofNat, intToString_data_negSucc] at hd
      have hmem : '-' ∈ (Nat.repr m).data := by
        rw [hd]; exact List.mem_cons_self _ _
      obtain ⟨k, hk, hc⟩ := natRepr_digits m '-' hmem
      exact digitChar_ne_dash k hk hc.symm
  | negSucc m =>
    cases b with
    | ofNat m2 =>
      exfalso
      rw [intToString_data_negSucc, intToString_data_ofNat] at hd
      have hmem : '-' ∈ (Nat.repr m2).data := by
        rw [← hd]; exact List.mem_cons_self _ _
      obtain ⟨k, hk, hc⟩ := natRepr_digits m2 '-' hmem
      exact digitChar_ne_dash k hk hc.symm
    | negSucc m2 =>
      rw [intToString_data_negSucc, intToString_data_negSucc] at hd
      simp only [List.cons.injEq, true_and] at hd
      have h1 : Nat.repr (m + 1) = Nat.repr (m2 + 1) := String.ext hd
      have h2 := natRepr_injective h1
      have h3 : m = m2 := by omega
      rw [h3]

theorem append_underscore_inj : ∀ {a1 a2 b1 b2 : List Char},
    '_' ∉ a1 → '_' ∉ a2 → a1 ++ '_' :: b1 = a2 ++ '_' :: b2 → a1 = a2 ∧ b1 = b2 := by
  intro a1
  induction a1 with
  | nil =>
    intro a2 b1 b2 _ h2 h
    cases a2 with
    | nil => simpa using h
    | cons x xs =>
      exfalso
      simp only [List.nil_append, List.cons_append, List.cons.injEq] at h
      exact h2 (h.1 ▸ List.mem_cons_self x xs)
  | cons x xs ih =>
    intro a2 b1 b2 h1 h2 h
    cases a2 with
    | nil =>
      exfalso
      simp only [List.nil_append, List.cons_append, List.cons.injEq] at h
      exact h1 (h.1.symm ▸ List.mem_cons_self x xs)
    | cons y ys =>
      simp only [List.cons_append, List.cons.injEq] at h
      obtain ⟨rfl, h⟩ := h
      have := ih (fun hm => h1 (List.mem_cons_of_mem _ hm)) (fun hm => h2 (List.mem_cons_of_mem _ hm)) h
      exact ⟨by rw [this.1], this.2⟩

theorem cacheIdOf_data_raw (c : Cell) :
    (cacheIdOf c).data =
      'c' :: 'a' :: 'c' :: 'h' :: 'e' :: '_' ::
        ((((toString c.i).data ++ ['_']) ++ (toString c.j).data) ++ []) := rfl

theorem cacheIdOf_data (c : Cell) :
    (cacheIdOf c).data =
      'c' :: 'a' :: 'c' :: 'h' :: 'e' :: '_' ::
        ((toString c.i).data ++ '_' :: (toString c.j).data) := by
  rw [cacheIdOf_data_raw]
  simp

theorem cacheIdOf_injective {c1 c2 : Cell} (h : cacheIdOf c1 = cacheIdOf c2) : c1 = c2 := by
  have hd := congrArg String.data h
  rw [cacheIdOf_data, cacheIdOf_data] at hd
  simp only [List.cons.injEq, true_and] at hd
  obtain ⟨hi, hj⟩ := append_underscore_inj (intToString_no_underscore c1.i)
    (intToString_no_underscore c2.i) hd
  have h1 : c1.i = c2.i := intToString_injective (String.ext hi)
  have h2 : c1.j = c2.j := intToString_injective (String.ext hj)
  cases c1; cases c2
  simp only [Cell.mk.injEq]
  exact ⟨h1, h2⟩

theorem squareCells_nodup (pc : Cell) : (squareCells pc).Nodup := by
  have hoff : offsets.Nodup := by
    refine List.Nodup.map ?_ (List.nodup_range _)
    intro a b hab
    simp only [RANGE] at hab
    omega
  unfold squareCells
  rw [List.nodup_flatMap]
  refine ⟨?_, ?_⟩
  · intro di _
    refine List.Nodup.map ?_ hoff
    intro a b hab
    simp only [Cell.mk.injEq] at hab
    omega
  · refine hoff.imp ?_
    intro a b hab
    simp only [Function.onFun, List.disjoint_left]
    intro x hx1 hx2
    simp only [List.mem_map] at hx1 hx2
    obtain ⟨d1, _, rfl⟩ := hx1
    obtain ⟨d2, _, h2⟩ := hx2
    simp only [Cell.mk.injEq] at h2
    omega

/-- No two distinct cells in any scanned square share a cache id. -/
theorem squareCells_pairwise_ids (pc : Cell) :
    (squareCells pc).Pairwise (fun a b => cacheIdOf a ≠ cacheIdOf b) := by
  refine (squareCells_nodup pc).imp ?_
  intro a b hne heq
  exact hne (cacheIdOf_injective heq)

/-- The scanned square is exactly the cells within Chebyshev distance `RANGE`
of the center. -/
theorem mem_squareCells (pc c : Cell) :
    c ∈ squareCells pc ↔ |c.i - pc.i| ≤ RANGE ∧ |c.j - pc.j| ≤ RANGE := by
  simp only [squareCells, offsets, List.mem_flatMap, List.mem_map, List.mem_range, RANGE]
  constructor
  · rintro ⟨di, ⟨⟨k, hk, rfl⟩, dj, ⟨⟨k2, hk2, rfl⟩, rfl⟩⟩⟩
    constructor
    · rw [abs_le]
      constructor <;> simp <;> omega
    · rw [abs_le]
      constructor <;> simp <;> omega
  · rintro ⟨h1, h2⟩
    rw [abs_le] at h1 h2
    refine ⟨c.i - pc.i, ⟨(c.i - pc.i + 8).toNat, by omega, by omega⟩,
      c.j - pc.j, ⟨(c.j - pc.j + 8).toNat, by omega, by omega⟩, ?_⟩
    cases c
    simp only [Cell.mk.injEq]
    constructor <;> omega

/-! ## Claims -/

/-- C1: for every Geocache `c` (any id, location, and finite coin sequence),
restoring from the snapshot produced by saving `c` — `fromMomento(toMomento(c))`
— yields a cache whose id, location, and coin sequence (in the same order)
are identical to those of `c`. -/
theorem C1_momento_roundtrip (c : Geocache) :
    (fromMomento c.toMomento).id = c.id ∧
    (fromMomento c.toMomento).location = c.location ∧
    (fromMomento c.toMomento).coins = c.coins :=
  ⟨rfl, rfl, rfl⟩

/-- C9: with `gridSize = 0.0001`, `cellOf (36.9895, -122.0627)` is the cell
`(369895, -1220627)` — `floor(36.9895/0.0001) = 369895` and
`floor(-122.0627/0.0001) = -1220627` on these literal constants. -/
theorem C9_initial_cell :
    latLngToCell { lat := INITIAL_LAT, lng := INITIAL_LNG } = { i := 369895, j := -1220627 } := by
  show Cell.mk ⌊INITIAL_LAT / GRID_SIZE⌋ ⌊INITIAL_LNG / GRID_SIZE⌋ = _
  norm_num [INITIAL_LAT, INITIAL_LNG, GRID_SIZE]

/-- C5: `generateCache` on cell `(i,j)` yields a present cache iff
`pseudoRandom(i·RANGE + j) < CACHE_PROBABILITY`; a present cache holds exactly
`floor(pseudoRandom(i + j + 1)·5)` coins, always between 0 and 4 when the
pseudo-random value lies in `[0,1)`, with coin identities `"{i}:{j}#{serial}"`
for `serial` in `[0, count)`. -/
theorem C5_generateCache_spec (dr : ℤ → ℚ) (st : Store) (cell : Cell)
    (hdr : ∀ n : ℤ, 0 ≤ dr n ∧ dr n < 1) :
    ((generateCache dr st cell).1.isSome ↔ dr (cell.i * RANGE + cell.j) < CACHE_PROBABILITY) ∧
    ∀ g, (generateCache dr st cell).1 = some g →
      g.coins.length = (⌊dr (cell.i + cell.j + 1) * 5⌋).toNat ∧
      g.coins.length ≤ 4 ∧
      ∀ k, (hk : k < g.coins.length) → (g.coins.get ⟨k, hk⟩).id = coinIdOf cell k := by
  have hfloor : ⌊dr (cell.i + cell.j + 1) * 5⌋ < 5 := by
    have h1 := (hdr (cell.i + cell.j + 1)).2
    have : dr (cell.i + cell.j + 1) * 5 < 5 := by nlinarith
    exact Int.floor_lt.mpr (by exact_mod_cast this)
  unfold generateCache
  split
  · next hpresent =>
    refine ⟨by simpa using hpresent, ?_⟩
    intro g hg
    simp only [Option.some.injEq] at hg
    subst hg
    refine ⟨by simp, by simp; omega, ?_⟩
    intro k hk
    simp at hk
    simp [List.get_eq_getElem, List.getElem_map, List.getElem_range, hk]
  · next habsent =>
    refine ⟨by simpa using habsent, ?_⟩
    intro g hg
    simp at hg

/-- Witness for C5 at `dr = const 0`, the empty store and cell `(0,0)`. -/
theorem C5_generateCache_spec_witness :
    (∀ n : ℤ, 0 ≤ (fun _ : ℤ => (0 : ℚ)) n ∧ (fun _ : ℤ => (0 : ℚ)) n < 1) ∧
    (((generateCache (fun _ : ℤ => (0 : ℚ)) [] { i := 0, j := 0 }).1.isSome ↔
        (0 : ℚ) < CACHE_PROBABILITY) ∧
      ∀ g, (generateCache (fun _ : ℤ => (0 : ℚ)) [] { i := 0, j := 0 }).1 = some g →
        g.coins.length = (⌊(0 : ℚ) * 5⌋).toNat ∧
        g.coins.length ≤ 4 ∧
        ∀ k, (hk : k < g.coins.length) →
          (g.coins.get ⟨k, hk⟩).id = coinIdOf { i := 0, j := 0 } k) :=
  ⟨fun _ => ⟨le_refl 0, one_pos⟩,
    C5_generateCache_spec (fun _ => 0) [] { i := 0, j := 0 } (fun _ => ⟨le_refl 0, one_pos⟩)⟩

/-- C2: for every well-formed state (the invariant every reachable state
satisfies: visible cache ids are distinct and each visible cache's momento is
in the authoritative store) and every finite sequence of collect/deposit
calls with any cache-id arguments, the player's inventory length plus the sum
of coin-sequence lengths over the store is unchanged: no transfer creates or
destroys a coin. -/
theorem C2_coin_conservation (ops : List TransferOp) (s : GameState) (h : WellFormed s) :
    totalCoins (applyTransfers ops s) = totalCoins s := by
  induction ops generalizing s with
  | nil => rfl
  | cons op rest ih =>
    have hstep : WellFormed (applyTransfer op s) ∧ totalCoins (applyTransfer op s) = totalCoins s := by
      cases op with
      | collect cid => exact collectCoins_preserves cid s h
      | deposit cid => exact depositCoins_preserves cid s h
    have happ : applyTransfers (op :: rest) s = applyTransfers rest (applyTransfer op s) := rfl
    rw [happ, ih _ hstep.1, hstep.2]

/-- Witness for C2: a one-cache, one-coin well-formed state, collected from
and deposited back. -/
theorem C2_coin_conservation_witness :
    WellFormed wState ∧
    totalCoins (applyTransfers
      [TransferOp.collect "cache_0_0", TransferOp.deposit "cache_0_0"] wState) = totalCoins wState :=
  ⟨by decide, C2_coin_conservation
    [TransferOp.collect "cache_0_0", TransferOp.deposit "cache_0_0"] wState (by decide)⟩

/-- C3 counterexample: the player holds a coin, yet `depositCoins` on a cache
id that is not among the visible caches moves nothing — refuting the claim's
"[deposit] is a no-op when the player holds zero coins, and otherwise moves
exactly the last coin of the inventory onto the end of the cache's sequence".
-/
theorem C3_counterexample :
    c3State.player.coins.length = 1 ∧
    depositCoins "cache_0_0" c3State = c3State :=
  ⟨rfl, rfl⟩

/-- C3 (amended): `collectCoins(cacheId)` is a no-op when the id is unknown
among visible caches or the cache has no coins; otherwise it removes exactly
the last coin of that cache's sequence, appends it to the player's inventory,
adds the id to the visited set, and writes the updated snapshot into the
cache state store before returning.  `depositCoins(cacheId)` is likewise a
no-op when the id is unknown among visible caches — not only when the player
holds zero coins — and otherwise moves exactly the last inventory coin onto
the end of the cache's sequence and persists the snapshot.  At most one coin
moves per call. -/
theorem C3_transfer_semantics (cacheId : String) (s : GameState) :
    (List.find? (fun c => c.id == cacheId) s.cacheLocations = none →
      collectCoins cacheId s = s ∧ depositCoins cacheId s = s) ∧
    (∀ cache, List.find? (fun c => c.id == cacheId) s.cacheLocations = some cache →
      (cache.coins.getLast? = none → collectCoins cacheId s = s) ∧
      (∀ coin, cache.coins.getLast? = some coin →
        cache.coins = cache.coins.dropLast ++ [coin] ∧
        (collectCoins cacheId s).player.coins = s.player.coins ++ [coin] ∧
        List.find? (fun c => c.id == cacheId) (collectCoins cacheId s).cacheLocations
          = some { cache with coins := cache.coins.dropLast } ∧
        cacheId ∈ (collectCoins cacheId s).player.visitedCaches ∧
        (collectCoins cacheId s).cacheState.get? cacheId
          = some ({ cache with coins := cache.coins.dropLast } : Geocache).toMomento) ∧
      (s.player.coins.getLast? = none → depositCoins cacheId s = s) ∧
      (∀ coin, s.player.coins.getLast? = some coin →
        (depositCoins cacheId s).player.coins = s.player.coins.dropLast ∧
        List.find? (fun c => c.id == cacheId) (depositCoins cacheId s).cacheLocations
          = some { cache with coins := cache.coins ++ [coin] } ∧
        (depositCoins cacheId s).cacheState.get? cacheId
          = some ({ cache with coins := cache.coins ++ [coin] } : Geocache).toMomento)) ∧
    ((collectCoins cacheId s).player.coins.length = s.player.coins.length ∨
      (collectCoins cacheId s).player.coins.length = s.player.coins.length + 1) ∧
    ((depositCoins cacheId s).player.coins.length = s.player.coins.length ∨
      (depositCoins cacheId s).player.coins.length + 1 = s.player.coins.length) := by
  have hfindSet : ∀ (cache c' : Geocache),
      List.find? (fun c => c.id == cacheId) s.cacheLocations = some cache →
      c'.id = cacheId →
      List.find? (fun c => c.id == cacheId) (setFirstCache cacheId c' s.cacheLocations)
        = some c' := by
    intro cache c' hfind hcid
    obtain ⟨l1, l2, hl, hl', hl1⟩ := setFirstCache_of_find? hfind c'
    rw [hl', List.find?_append]
    have h1 : List.find? (fun c => c.id == cacheId) l1 = none := by
      rw [List.find?_eq_none]
      intro x hx
      simpa using hl1 x hx
    rw [h1]
    simp [List.find?_cons, hcid]
  refine ⟨?_, ?_, ?_, ?_⟩
  · intro hfind
    exact ⟨collectCoins_of_not_found hfind, depositCoins_of_not_found hfind⟩
  · intro cache hfind
    have hid : cache.id = cacheId := by simpa using List.find?_some hfind
    refine ⟨fun hempty => collectCoins_of_empty hfind hempty, ?_, ?_, ?_⟩
    · intro coin hlast
      rw [collectCoins_of_success hfind hlast]
      refine ⟨(List.dropLast_append_getLast? coin hlast).symm, rfl, ?_, ?_, ?_⟩
      · exact hfindSet cache _ hfind hid
      · show cacheId ∈ insertVisited cache.id s.player.visitedCaches
        rw [hid]
        unfold insertVisited
        split
        · assumption
        · simp
      · show (s.cacheState.set cache.id
            ({ cache with coins := cache.coins.dropLast } : Geocache).toMomento).get? cacheId
          = _
        rw [hid]
        exact Store.get?_set_self _ _ _
    · exact fun hempty => depositCoins_of_empty hfind hempty
    · intro coin hlast
      rw [depositCoins_of_success hfind hlast]
      refine ⟨rfl, ?_, ?_⟩
      · exact hfindSet cache _ hfind hid
      · show (s.cacheState.set cache.id
            ({ cache with coins := cache.coins ++ [coin] } : Geocache).toMomento).get? cacheId
          = _
        rw [hid]
        exact Store.get?_set_self _ _ _
  · cases hfind : List.find? (fun c => c.id == cacheId) s.cacheLocations with
    | none => rw [collectCoins_of_not_found hfind]; exact Or.inl rfl
    | some cache =>
      cases hlast : cache.coins.getLast? with
      | none => rw [collectCoins_of_empty hfind hlast]; exact Or.inl rfl
      | some coin =>
        rw [collectCoins_of_success hfind hlast]
        refine Or.inr ?_
        show (s.player.coins ++ [coin]).length = s.player.coins.length + 1
        simp
  · cases hfind : List.find? (fun c => c.id == cacheId) s.cacheLocations with
    | none => rw [depositCoins_of_not_found hfind]; exact Or.inl rfl
    | some cache =>
      cases hlast : s.player.coins.getLast? with
      | none => rw [depositCoins_of_empty hfind hlast]; exact Or.inl rfl
      | some coin =>
        rw [depositCoins_of_success hfind hlast]
        refine Or.inr ?_
        show s.player.coins.dropLast.length + 1 = s.player.coins.length
        have hnil : s.player.coins ≠ [] := by
          intro hnil; rw [hnil] at hlast; simp at hlast
        have := List.length_pos.mpr hnil
        simp [List.length_dropLast]
        omega

/-- Witness for C3 (amended): a successful collect on the one-cache state
moves the single coin into the inventory. -/
theorem C3_transfer_semantics_witness :
    List.find? (fun c => c.id == "cache_0_0") wState.cacheLocations = some wCache ∧
    wCache.coins.getLast? = some { id := "0:0#0" } ∧
    (collectCoins "cache_0_0" wState).player.coins = wState.player.coins ++ [{ id := "0:0#0" }] :=
  ⟨by decide, by decide,
    (((C3_transfer_semantics "cache_0_0" wState).2.1 wCache (by decide)).2.1
      { id := "0:0#0" } (by decide)).2.1⟩

/-- C6 counterexample: collecting the coin of `c6State`'s cache changes the
inventory but leaves the persisted blob untouched, so the blob no longer
reflects the state after the most recent state-changing action. -/
theorem C6_counterexample :
    (collectCoins "cache_0_0" c6State).player.coins ≠ c6State.player.coins ∧
    (collectCoins "cache_0_0" c6State).savedBlob
      ≠ some (encodeSession (sessionOf (collectCoins "cache_0_0" c6State))) := by
  constructor
  · intro h
    have h0 : (collectCoins "cache_0_0" c6State).player.coins = [{ id := "0:0#0" }] := rfl
    have h1 : c6State.player.coins = [] := rfl
    rw [h0, h1] at h
    exact List.cons_ne_nil _ _ h
  · intro h
    have h1 : Option.map jsonInventoryLength (collectCoins "cache_0_0" c6State).savedBlob
        = some 0 := rfl
    rw [h] at h1
    have h2 : Option.map jsonInventoryLength
        (some (encodeSession (sessionOf (collectCoins "cache_0_0" c6State)))) = some 1 := rfl
    exact absurd (h1.symm.trans h2) (by decide)

/-- C6 (amended): the durable session blob is written (reflecting the
post-move state) before every move step completes, but `collectCoins` and
`depositCoins` leave the persisted blob unchanged — only the in-memory cache
state store is updated — so the blob reflects the state as of the most recent
move (or restore), not of the most recent collect or deposit. -/
theorem C6_persistence (dr : ℤ → ℚ) (direction cacheId : String) (s : GameState) :
    (moveButtonStep dr direction s).savedBlob
      = some (encodeSession (sessionOf (moveButtonStep dr direction s))) ∧
    (collectCoins cacheId s).savedBlob = s.savedBlob ∧
    (depositCoins cacheId s).savedBlob = s.savedBlob := by
  have hsave : ∀ t : GameState,
      (saveGameState t).savedBlob = some (encodeSession (sessionOf (saveGameState t))) :=
    fun _ => rfl
  refine ⟨hsave (updateVisibleCaches dr { s with player := Player.move direction s.player }), ?_, ?_⟩
  · cases hfind : List.find? (fun c => c.id == cacheId) s.cacheLocations with
    | none => rw [collectCoins_of_not_found hfind]
    | some cache =>
      cases hlast : cache.coins.getLast? with
      | none => rw [collectCoins_of_empty hfind hlast]
      | some coin => rw [collectCoins_of_success hfind hlast]
  · cases hfind : List.find? (fun c => c.id == cacheId) s.cacheLocations with
    | none => rw [depositCoins_of_not_found hfind]
    | some cache =>
      cases hlast : s.player.coins.getLast? with
      | none => rw [depositCoins_of_empty hfind hlast]
      | some coin => rw [depositCoins_of_success hfind hlast]

/-- C7 counterexample: with the persisted blob holding the JSON text
`"oops"` — malformed for the expected layout — restoring throws
(`caches.forEach` on `undefined`) instead of falling back to the fresh
new-game state, while with no blob at all restore leaves the fresh state
untouched. -/
theorem C7_counterexample :
    restoreGameState drOne { freshState with savedBlob := some (Json.str "oops") }
      = RestoreOutcome.thrown ∧
    restoreGameState drOne freshState = RestoreOutcome.ok freshState :=
  ⟨rfl, rfl⟩

/-- C7 (amended): a malformed persisted blob is never treated as absent.  In
particular, whenever the parsed blob is not an object carrying an
array-valued `caches` field (e.g. the stored text `"oops"`), the restore
step throws — a TypeError at `caches.forEach`, or at destructuring `null` —
and the exception propagates, aborting initialization, instead of falling
back to the fresh session.  Only an absent blob takes the fresh-session
path, leaving the state untouched.  (Blobs that do supply a `caches` array
but are malformed elsewhere are loaded without validation, not reset; the
typed model asserts nothing further about them.) -/
theorem C7_restore_malformed (dr : ℤ → ℚ) (s : GameState) (blob : Json)
    (hblob : s.savedBlob = some blob) (hbad : cachesArray? blob = none) :
    restoreGameState dr s = RestoreOutcome.thrown ∧
    ∀ s2 : GameState, s2.savedBlob = none → restoreGameState dr s2 = RestoreOutcome.ok s2 := by
  constructor
  · have h1 : restoreGameState dr s = restoreFromBlob dr blob s := by
      unfold restoreGameState
      rw [hblob]
    rw [h1]
    unfold restoreFromBlob
    rw [hbad]
  · intro s2 h2
    unfold restoreGameState
    rw [h2]

/-- Witness for C7 (amended) at the concrete corrupt blob `"oops"`. -/
theorem C7_restore_malformed_witness :
    ({ freshState with savedBlob := some (Json.str "oops") } : GameState).savedBlob
        = some (Json.str "oops") ∧
    cachesArray? (Json.str "oops") = none ∧
    restoreGameState drOne { freshState with savedBlob := some (Json.str "oops") }
      = RestoreOutcome.thrown :=
  ⟨rfl, rfl,
    (C7_restore_malformed drOne { freshState with savedBlob := some (Json.str "oops") }
      (Json.str "oops") rfl rfl).1⟩

/-- C8 counterexample: a move step changes the player's position but appends
nothing to the movement trail (`updateMovementHistory` is never called by the
move handler), so the trail does not end with the new position. -/
theorem C8_counterexample :
    (moveButtonStep drOne "north" freshState).player.position ≠ freshState.player.position ∧
    (moveButtonStep drOne "north" freshState).movementHistory = [] := by
  constructor
  · intro h
    have hlat := congrArg Coordinates.lat h
    have h1 : (moveButtonStep drOne "north" freshState).player.position.lat
        = INITIAL_LAT + GRID_SIZE := rfl
    have h2 : freshState.player.position.lat = INITIAL_LAT := rfl
    rw [h1, h2] at hlat
    have hg : GRID_SIZE ≠ 0 := by norm_num [GRID_SIZE]
    exact hg (by linarith)
  · rfl

/-- C8 (amended): each of the four directions shifts exactly one coordinate
axis by exactly `±gridSize`, and after the move step the world view has been
refreshed for the new position; but the movement trail is NOT appended — the
move handler never calls `updateMovementHistory`, so the trail is unchanged
by moves. -/
theorem C8_move_semantics (dr : ℤ → ℚ) (s : GameState) :
    ((moveButtonStep dr "north" s).player.position
        = { lat := s.player.position.lat + GRID_SIZE, lng := s.player.position.lng } ∧
      (moveButtonStep dr "south" s).player.position
        = { lat := s.player.position.lat - GRID_SIZE, lng := s.player.position.lng } ∧
      (moveButtonStep dr "east" s).player.position
        = { lat := s.player.position.lat, lng := s.player.position.lng + GRID_SIZE } ∧
      (moveButtonStep dr "west" s).player.position
        = { lat := s.player.position.lat, lng := s.player.position.lng - GRID_SIZE }) ∧
    (∀ direction, (moveButtonStep dr direction s).cacheLocations
        = (updateVisibleCaches dr { s with player := Player.move direction s.player }).cacheLocations) ∧
    (∀ direction, (moveButtonStep dr direction s).movementHistory = s.movementHistory) :=
  ⟨⟨rfl, rfl, rfl, rfl⟩, fun _ => rfl, fun _ => rfl⟩

/-- C4: after `updateVisibleCaches` the visible cache list is exactly the
per-cell resolution — store snapshot if present, else the deterministic
existence test — over the cells within `RANGE` (Chebyshev) of the player's
cell, the `(2·RANGE+1)²` square; and an immediately repeated call at the same
position reproduces exactly the same visible list. -/
theorem C4_visible_caches (dr : ℤ → ℚ) (s : GameState) :
    (∀ c : Cell, c ∈ squareCells (latLngToCell s.player.position) ↔
        |c.i - (latLngToCell s.player.position).i| ≤ RANGE ∧
        |c.j - (latLngToCell s.player.position).j| ≤ RANGE) ∧
    (updateVisibleCaches dr s).cacheLocations
      = (squareCells (latLngToCell s.player.position)).filterMap (resolvePure dr s.cacheState) ∧
    (updateVisibleCaches dr (updateVisibleCaches dr s)).cacheLocations
      = (updateVisibleCaches dr s).cacheLocations := by
  have h := squareCells_pairwise_ids (latLngToCell s.player.position)
  refine ⟨fun c => mem_squareCells _ c, ?_, ?_⟩
  · rw [updateVisibleCaches_cacheLocations]
    exact visibleLoop_fst dr _ _ h
  · rw [updateVisibleCaches_cacheLocations, updateVisibleCaches_cacheLocations,
      updateVisibleCaches_player, updateVisibleCaches_cacheState]
    rw [visibleLoop_fst dr _ _ h, visibleLoop_fst dr _ _ h]
    apply List.filterMap_congr
    intro c hc
    unfold resolvePure
    rw [visibleLoop_snd_get?_mem dr _ _ c h hc]
    cases hget : s.cacheState.get? (cacheIdOf c) with
    | some m => rfl
    | none =>
      cases hgen : (generateCache dr s.cacheState c).1 with
      | none =>
        show (generateCache dr
            (visibleLoop dr (squareCells (latLngToCell s.player.position)) s.cacheState).2 c).1 = _
        rw [generateCache_fst dr _ s.cacheState c, hgen]
      | some g =>
        show some (fromMomento g.toMomento) = some g
        rw [fromMomento_toMomento]

/-- C10: membership in `visitedCaches` is recorded by a successful collect but
never tested: `collectCoins` run with any substituted visited set succeeds or
fails identically and has the identical effect on position, inventory, visible
caches, store, trail and persisted blob; its only use of the set is to insert
the cache id on success. -/
theorem C10_visited_not_gating (cacheId : String) (s : GameState) (v : List String) :
    ((collectCoins cacheId { s with player := { s.player with visitedCaches := v } }).player.position
        = (collectCoins cacheId s).player.position ∧
      (collectCoins cacheId { s with player := { s.player with visitedCaches := v } }).player.coins
        = (collectCoins cacheId s).player.coins ∧
      (collectCoins cacheId { s with player := { s.player with visitedCaches := v } }).cacheLocations
        = (collectCoins cacheId s).cacheLocations ∧
      (collectCoins cacheId { s with player := { s.player with visitedCaches := v } }).cacheState
        = (collectCoins cacheId s).cacheState ∧
      (collectCoins cacheId { s with player := { s.player with visitedCaches := v } }).movementHistory
        = (collectCoins cacheId s).movementHistory ∧
      (collectCoins cacheId { s with player := { s.player with visitedCaches := v } }).savedBlob
        = (collectCoins cacheId s).savedBlob) ∧
    ((collectCoins cacheId { s with player := { s.player with visitedCaches := v } }).player.visitedCaches = v ∨
      (collectCoins cacheId { s with player := { s.player with visitedCaches := v } }).player.visitedCaches
        = insertVisited cacheId v) := by
  cases hfind : List.find? (fun c => c.id == cacheId) s.cacheLocations with
  | none =>
    simp [collectCoins, hfind]
  | some cache =>
    cases hlast : cache.coins.getLast? with
    | none => simp [collectCoins, hfind, hlast]
    | some coin =>
      have hid : cache.id = cacheId := by
        have := List.find?_some hfind
        simpa using this
      simp [collectCoins, hfind, hlast, Player.collectCoin, hid]

end Demo3
